import Mathlib

attribute [local semireducible] Rat.add Rat.sub Rat.mul Rat.inv

/-!
Verification of the trace-alignment core of the osu-anticheat repository.

The Python source (`replay.py`, `comparer.py`) is embedded shallowly:
timestamps and coordinates become rationals, tuples `(t, x, y)` become the
`Sample` structure, fallible operations return `Option` (with `none`
modelling a raised exception), and the stateful loops become structural
recursions threading their cursors explicitly.
-/

namespace OsuAC

/-- A cursor sample, the `(t, x, y)` tuples of `replay.py`. -/
structure Sample where
  t : ℚ
  x : ℚ
  y : ℚ
deriving DecidableEq, Repr, Inhabited

/-- A coordinate pair, as produced by the Python slice `p[1:]`. -/
abbrev Coord := ℚ × ℚ

/-- The coordinate part of a sample (`p[1:]` in the source). -/
def Sample.coords (s : Sample) : Coord := (s.x, s.y)

/-- The default sample used for out-of-range list indexing; all reachable
index accesses of the embedded code are in range. -/
def dflt : Sample := ⟨0, 0, 0⟩

namespace Interpolation

/-- `Interpolation.linear` (`replay.py` lines 7-18): weighted average of the
two coordinate tuples with weight `r`. -/
def linear (x1 x2 : Coord) (r : ℚ) : Coord :=
  ((1 - r) * x1.1 + r * x2.1, (1 - r) * x1.2 + r * x2.2)

/-- `Interpolation.before` (`replay.py` lines 20-31). The docstring of the
source says it returns the startpoint `x1`, but the body returns `x2`. -/
def before (x1 x2 : Coord) (r : ℚ) : Coord := x2

end Interpolation

/-- Fuelled form of the sweep's cursor advance of `Replay.interpolate`
(`replay.py` line 156): `while j < len(data2) - 1 and data2[j][0] < t: j += 1`.
The loop body runs at most `len(data2) - 1 - j` times, so fuel
`src.length` is never exhausted. -/
def advanceAux (src : List Sample) (t : ℚ) : ℕ → ℕ → ℕ
  | 0, j => j
  | fuel + 1, j =>
    if j < src.length - 1 ∧ (src.getD j dflt).t < t then advanceAux src t fuel (j + 1)
    else j

/-- The sweep's cursor advance (`replay.py` line 156). -/
def advance (src : List Sample) (t : ℚ) (j : ℕ) : ℕ := advanceAux src t src.length j

/-- The main sweep of `Replay.interpolate` (`replay.py` lines 148-189): walk
the reference samples, keep each in `clean`, and append to `inter` either the
interpolated source value, the left source sample's coordinates when the
bracket is degenerate (`dt2 == 0`), or the reference sample itself when the
interpolated value trips the magnitude-600 guard; stop everything once the
cursor reaches the source's last index. -/
def sweep (interp : Coord → Coord → ℚ → Coord) (src : List Sample) :
    ℕ → List Sample → List Sample × List Sample
  | _, [] => ([], [])
  | j, between :: rest =>
    let j' := advance src between.t j
    if j' = src.length - 1 then ([between], [])
    else
      let bef := src.getD j' dflt
      let aft := src.getD (j' + 1) dflt
      let dt1 := between.t - bef.t
      let dt2 := aft.t - bef.t
      let nxt : Sample :=
        if dt2 = 0 then ⟨between.t, bef.x, bef.y⟩
        else
          let xi := interp bef.coords aft.coords (dt1 / dt2)
          if 600 < |xi.1| ∨ 600 < |xi.2| then between
          else ⟨between.t, xi.1, xi.2⟩
      let res := sweep interp src j' rest
      (between :: res.1, nxt :: res.2)

/-- Head-trim and length-based re-pairing stage of `Replay.interpolate`
(`replay.py` lines 136-145), run after the initial swap has made `d1` the
earlier-starting sequence; `flipped` records whether that swap happened.
Returns `(ref, src, flipped)` where `ref` drives the sweep. `none` models the
StopIteration raised by the unguarded `next` when no sample of `d1` lies
strictly after `d2`'s first timestamp. -/
def alignOriented (d1 d2 : List Sample) (flipped : Bool) :
    Option (List Sample × List Sample × Bool) :=
  match d1.findIdx? fun p => decide (d2.headI.t < p.t) with
  | none => none
  | some i =>
    let d1' := if d1.length < d2.length then d1.drop i else d1.drop (i - 1)
    if d2.length < d1'.length then some (d2, d1', !flipped) else some (d1', d2, flipped)

/-- The two swap stages of `Replay.interpolate` (`replay.py` lines 128-145).
`none` models the IndexError of `data1[0]` / `data2[0]` on an empty input and
the StopIteration of the head-trim. -/
def alignPair (data1 data2 : List Sample) : Option (List Sample × List Sample × Bool) :=
  match data1, data2 with
  | [], _ => none
  | _ :: _, [] => none
  | a1 :: r1, a2 :: r2 =>
    if a2.t < a1.t then alignOriented (a2 :: r2) (a1 :: r1) true
    else alignOriented (a1 :: r1) (a2 :: r2) false

/-- `Replay.interpolate` (`replay.py` lines 107-194): orient, head-trim,
re-pair by length, sweep, and finally swap the two outputs back when
`unflip` is set and a flip occurred. -/
def interpolate (interp : Coord → Coord → ℚ → Coord) (unflip : Bool)
    (data1 data2 : List Sample) : Option (List Sample × List Sample) :=
  (alignPair data1 data2).map fun rsf =>
    let ci := sweep interp rsf.2.1 0 rsf.1
    if unflip && rsf.2.2 then (ci.2, ci.1) else ci

/-- The emission guard of `Comparer._print_result` (`comparer.py` lines
106-121): the body returns early — emitting nothing — exactly when
`mean > self.threshold`, and prints the outcome otherwise. -/
def printResultEmits (threshold mean : ℚ) : Bool :=
  if threshold < mean then false else true

/-- Fuelled form of the inner cursor advance of `Replay.resample`
(`replay.py` line 216): `while timestamped[i][0] < t: i += 1`. The source has
no bound check and would raise IndexError past the end; in every reachable
state the loop stops at or before the last sample (whose timestamp is
`t_max > t`), so the added `i < ts.length` bound is inert. -/
def skipIdxAux (ts : List Sample) (t : ℚ) : ℕ → ℕ → ℕ
  | 0, i => i
  | fuel + 1, i =>
    if i < ts.length ∧ (ts.getD i dflt).t < t then skipIdxAux ts t fuel (i + 1)
    else i

/-- The inner cursor advance of `Replay.resample` (`replay.py` line 216). -/
def skipIdx (ts : List Sample) (t : ℚ) (i : ℕ) : ℕ := skipIdxAux ts t ts.length i

/-- One fuelled layer of `Replay.resample`'s main loop (`replay.py` lines
215-225). `resample` passes fuel equal to the exact number of iterations of
the source's `while t < t_max` loop, so the `t < tmax` guard and the fuel
run out together. Python's `timestamped[i - 1]` at `i = 0` denotes the last
element (negative indexing), hence the conditional index for `prev`. -/
def resampleLoop (ts : List Sample) (step tmax : ℚ) : ℕ → ℕ → ℚ → List Sample
  | 0, _, _ => []
  | fuel + 1, i, t =>
    if t < tmax then
      let i' := skipIdx ts t i
      let prev := ts.getD (if i' = 0 then ts.length - 1 else i' - 1) dflt
      let cur := ts.getD i' dflt
      let xi := Interpolation.linear prev.coords cur.coords ((t - prev.t) / (cur.t - prev.t))
      ⟨t, xi.1, xi.2⟩ :: resampleLoop ts step tmax fuel i' (t + step)
    else []

/-- `Replay.resample` (`replay.py` lines 196-227). `none` models the
IndexError of `timestamped[0]` on an empty input, and — when the loop body
is reachable (`t_0 < t_max`) with `frequency ≤ 0` — the division by zero /
non-terminating loop of a non-positive step. For a positive step the loop
runs exactly `⌈(t_max - t_0) / step⌉` times. -/
def resample (ts : List Sample) (frequency : ℚ) : Option (List Sample) :=
  match ts with
  | [] => none
  | a :: rest =>
    let t0 := a.t
    let tmax := ((a :: rest).getLast (by simp)).t
    if tmax ≤ t0 then some []
    else if frequency ≤ 0 then none
    else
      let step := 1000 / frequency
      some (resampleLoop (a :: rest) step tmax (⌈(tmax - t0) / step⌉).toNat 0 t0)

/-- The running-accumulator loop of `Replay.skip_breaks` (`replay.py` lines
242-254): each gap exceeding the threshold is added to the running total,
and every emitted timestamp is shifted down by the current total. -/
def skipBreaksLoop (threshold : ℚ) : List Sample → ℚ → ℚ → List Sample
  | [], _, _ => []
  | e :: rest, tprev, total =>
    let dt := e.t - tprev
    let total' := if threshold < dt then total + dt else total
    ⟨e.t - total', e.x, e.y⟩ :: skipBreaksLoop threshold rest e.t total'

/-- `Replay.skip_breaks` (`replay.py` lines 229-255); `none` models the
IndexError of `timestamped[0]` on an empty input. -/
def skipBreaks (ts : List Sample) (threshold : ℚ) : Option (List Sample) :=
  match ts with
  | [] => none
  | a :: rest => some (skipBreaksLoop threshold (a :: rest) a.t 0)

/-- A raw replay event `(time_since_previous_action, x, y)`, the fields of
`osrparse.ReplayEvent` used by `Replay.as_list_with_timestamps`. -/
abbrev Event := ℚ × ℚ × ℚ

/-- Running cumulative sums, the `numpy.cumsum` of `replay.py` line 267. -/
def cumsumFrom (acc : ℚ) : List ℚ → List ℚ
  | [] => []
  | d :: rest => (acc + d) :: cumsumFrom (acc + d) rest

/-- `Replay.as_list_with_timestamps` (`replay.py` lines 257-274): cumulative
sums of the per-event deltas, zipped with the coordinates, then stably
sorted by timestamp (Python's `list.sort` is stable, as is `mergeSort`).
Every step is total: on zero events the result is the empty list. -/
def asListWithTimestamps (events : List Event) : List Sample :=
  let timestamps := cumsumFrom 0 (events.map Prod.fst)
  let txy := List.zipWith (fun t (e : Event) => Sample.mk t e.2.1 e.2.2) timestamps events
  txy.mergeSort fun p q => decide (p.t ≤ q.t)

/-- The squared per-index distances of `Comparer._compute_data_similarity`
(`comparer.py` lines 152-184): swap so the first sequence is the longer,
truncate it to the shorter's length, and sum the squared componentwise
differences at each index. -/
def distancesSq (data1 data2 : List Coord) : List ℚ :=
  let p := if data1.length < data2.length then (data2, data1) else (data1, data2)
  List.zipWith (fun a b : Coord => (a.1 - b.1) ^ 2 + (a.2 - b.2) ^ 2)
    (p.1.take p.2.length) p.2

/-- The mean of the per-index Euclidean distances, the `mu` of
`Comparer._compute_data_similarity` (`comparer.py` lines 180-182). -/
noncomputable def meanDistance (data1 data2 : List Coord) : ℝ :=
  (((distancesSq data1 data2).map fun d => Real.sqrt (d : ℝ)).sum) /
    ((distancesSq data1 data2).length : ℝ)

/-- The first input of the spec's concrete alignment scenario. -/
def exA : List Sample := [⟨0, 0, 0⟩, ⟨10, 10, 0⟩, ⟨20, 20, 0⟩]

/-- The second input of the spec's concrete alignment scenario. -/
def exB : List Sample := [⟨0, 0, 0⟩, ⟨20, 20, 0⟩]

/-- A reference trace whose second sample carries a coordinate of magnitude
700; the outlier guard substitutes this sample verbatim. -/
def cxA : List Sample := [⟨-5, 0, 0⟩, ⟨5, 700, 0⟩]

/-- A sparse source trace whose bracket around `t = 5` extrapolates to
`x = 2500`, tripping the magnitude-600 guard. -/
def cxB : List Sample := [⟨0, 0, 0⟩, ⟨10, 2000, 0⟩, ⟨30, 0, 0⟩]


-- C4 eval
/-- The sweep appends one sample to `clean` per processed reference sample and
one to `inter` except when it stops, so the two outputs' lengths differ by at
most one, with `clean` the longer. -/
theorem sweep_lengths (interp : Coord → Coord → ℚ → Coord) (src : List Sample) :
    ∀ (ref : List Sample) (j : ℕ),
      (sweep interp src j ref).2.length ≤ (sweep interp src j ref).1.length ∧
      (sweep interp src j ref).1.length ≤ (sweep interp src j ref).2.length + 1 := by
  intro ref
  induction ref with
  | nil => intro j; simp [sweep]
  | cons between rest ih =>
    intro j
    simp only [sweep]
    by_cases h : advance src between.t j = src.length - 1
    · simp [h]
    · have := ih (advance src between.t j)
      simp only [if_neg h, List.length_cons]
      omega

/-- The `clean` output of the sweep is a prefix of the reference sequence:
the reference samples after the stopping point appear in neither output. -/
theorem sweep_clean_take (interp : Coord → Coord → ℚ → Coord) (src : List Sample) :
    ∀ (ref : List Sample) (j : ℕ),
      (sweep interp src j ref).1 = ref.take (sweep interp src j ref).1.length := by
  intro ref
  induction ref with
  | nil => intro j; simp [sweep]
  | cons between rest ih =>
    intro j
    simp only [sweep]
    by_cases h : advance src between.t j = src.length - 1
    · simp [h]
    · simp only [if_neg h, List.length_cons, List.take_succ_cons, List.cons.injEq, true_and]
      exact ih (advance src between.t j)

/-- The sweep emits at most one `clean` sample per reference sample. -/
theorem sweep_clean_length_le (interp : Coord → Coord → ℚ → Coord) (src : List Sample)
    (ref : List Sample) (j : ℕ) : (sweep interp src j ref).1.length ≤ ref.length := by
  have h := sweep_clean_take interp src ref j
  have := congrArg List.length h
  simp only [List.length_take] at this
  omega

/-- The reference chosen by the trim stage is no longer than either input
and no longer than the chosen source. -/
theorem alignOriented_ref_length (d1 d2 : List Sample) (fl : Bool)
    (ref src : List Sample) (f : Bool)
    (h : alignOriented d1 d2 fl = some (ref, src, f)) :
    ref.length ≤ d1.length ∧ ref.length ≤ d2.length ∧ ref.length ≤ src.length := by
  unfold alignOriented at h
  cases hf : d1.findIdx? fun p => decide (d2.headI.t < p.t) with
  | none => rw [hf] at h; simp at h
  | some i =>
    rw [hf] at h
    simp only at h
    set d1' := if d1.length < d2.length then d1.drop i else d1.drop (i - 1) with hd1'
    have hlen : d1'.length ≤ d1.length := by
      rw [hd1']
      split <;> simp [List.length_drop]
    by_cases hc : d2.length < d1'.length
    · rw [if_pos hc] at h
      simp only [Option.some.injEq, Prod.mk.injEq] at h
      obtain ⟨h1, h2, h3⟩ := h
      subst h1; subst h2
      omega
    · rw [if_neg hc] at h
      simp only [Option.some.injEq, Prod.mk.injEq] at h
      obtain ⟨h1, h2, h3⟩ := h
      subst h1; subst h2
      omega

/-- The reference chosen by `alignPair` is bounded by both inputs' lengths. -/
theorem alignPair_ref_length (A B : List Sample) (ref src : List Sample) (f : Bool)
    (h : alignPair A B = some (ref, src, f)) :
    ref.length ≤ A.length ∧ ref.length ≤ B.length ∧ ref.length ≤ src.length := by
  cases A with
  | nil => simp [alignPair] at h
  | cons a1 r1 =>
    cases B with
    | nil => simp [alignPair] at h
    | cons a2 r2 =>
      simp only [alignPair] at h
      by_cases hc : a2.t < a1.t
      · rw [if_pos hc] at h
        have := alignOriented_ref_length _ _ _ _ _ _ h
        exact ⟨this.2.1, this.1, this.2.2⟩
      · rw [if_neg hc] at h
        exact alignOriented_ref_length _ _ _ _ _ _ h

/-- A defaulted list lookup is a member of the list or the default. -/
theorem getD_mem_or_eq : ∀ (l : List Sample) (n : ℕ),
    l.getD n dflt ∈ l ∨ l.getD n dflt = dflt
  | [], n => Or.inr (by simp)
  | a :: l, 0 => Or.inl (by simp)
  | a :: l, n + 1 => by
    rcases getD_mem_or_eq l n with h | h
    · exact Or.inl (by simp only [List.getD_cons_succ]; exact List.mem_cons_of_mem _ h)
    · right
      simpa using h

/-- Every sample the sweep appends to `inter` either respects the 600 bound
on both axes or copies the coordinates of a reference or source sample (the
outlier-guard and degenerate-bracket branches). -/
theorem sweep_inter_mem (interp : Coord → Coord → ℚ → Coord) (src : List Sample) :
    ∀ (ref : List Sample) (j : ℕ) (q : Sample), q ∈ (sweep interp src j ref).2 →
      (|q.x| ≤ 600 ∧ |q.y| ≤ 600) ∨
        ∃ p, (p ∈ ref ∨ p ∈ src) ∧ p.x = q.x ∧ p.y = q.y := by
  intro ref
  induction ref with
  | nil => intro j q hq; simp [sweep] at hq
  | cons between rest ih =>
    intro j q hq
    simp only [sweep] at hq
    by_cases h : advance src between.t j = src.length - 1
    · simp [h] at hq
    · simp only [if_neg h, List.mem_cons] at hq
      rcases hq with hq | hq
      · -- q is the freshly appended interpolated value
        by_cases hdt : (src.getD (advance src between.t j + 1) dflt).t
            - (src.getD (advance src between.t j) dflt).t = 0
        · rw [if_pos hdt] at hq
          rcases getD_mem_or_eq src (advance src between.t j) with hm | hd
          · right
            exact ⟨src.getD (advance src between.t j) dflt, Or.inr hm, by rw [hq], by rw [hq]⟩
          · left
            rw [hq, hd]
            constructor <;> simp [dflt]
        · rw [if_neg hdt] at hq
          by_cases hout : 600 < |(interp (src.getD (advance src between.t j) dflt).coords
                (src.getD (advance src between.t j + 1) dflt).coords
                ((between.t - (src.getD (advance src between.t j) dflt).t) /
                  ((src.getD (advance src between.t j + 1) dflt).t
                    - (src.getD (advance src between.t j) dflt).t))).1| ∨
              600 < |(interp (src.getD (advance src between.t j) dflt).coords
                (src.getD (advance src between.t j + 1) dflt).coords
                ((between.t - (src.getD (advance src between.t j) dflt).t) /
                  ((src.getD (advance src between.t j + 1) dflt).t
                    - (src.getD (advance src between.t j) dflt).t))).2|
          · rw [if_pos hout] at hq
            right
            exact ⟨between, Or.inl (List.mem_cons_self _ _), by rw [hq], by rw [hq]⟩
          · rw [if_neg hout] at hq
            push_neg at hout
            left
            rw [hq]
            exact hout
      · rcases ih (advance src between.t j) q hq with h1 | ⟨p, hp, hx, hy⟩
        · left; exact h1
        · right
          refine ⟨p, ?_, hx, hy⟩
          rcases hp with h2 | h2
          · exact Or.inl (List.mem_cons_of_mem _ h2)
          · exact Or.inr h2

/-- The trim stage only rearranges and drops samples: reference and source
elements come from the two inputs. -/
theorem alignOriented_mem (d1 d2 : List Sample) (fl : Bool)
    (ref src : List Sample) (f : Bool)
    (h : alignOriented d1 d2 fl = some (ref, src, f)) :
    (∀ p ∈ ref, p ∈ d1 ∨ p ∈ d2) ∧ (∀ p ∈ src, p ∈ d1 ∨ p ∈ d2) := by
  unfold alignOriented at h
  cases hf : d1.findIdx? fun p => decide (d2.headI.t < p.t) with
  | none => rw [hf] at h; simp at h
  | some i =>
    rw [hf] at h
    simp only at h
    have hsub : ∀ p ∈ (if d1.length < d2.length then d1.drop i else d1.drop (i - 1)),
        p ∈ d1 := by
      intro p hp
      split at hp <;> exact List.drop_subset _ _ hp
    by_cases hc : d2.length <
        (if d1.length < d2.length then d1.drop i else d1.drop (i - 1)).length
    · rw [if_pos hc] at h
      simp only [Option.some.injEq, Prod.mk.injEq] at h
      obtain ⟨h1, h2, h3⟩ := h
      subst h1; subst h2
      exact ⟨fun p hp => Or.inr hp, fun p hp => Or.inl (hsub p hp)⟩
    · rw [if_neg hc] at h
      simp only [Option.some.injEq, Prod.mk.injEq] at h
      obtain ⟨h1, h2, h3⟩ := h
      subst h1; subst h2
      exact ⟨fun p hp => Or.inl (hsub p hp), fun p hp => Or.inr hp⟩

/-- Reference and source samples of `alignPair` come from the two inputs. -/
theorem alignPair_mem (A B : List Sample) (ref src : List Sample) (f : Bool)
    (h : alignPair A B = some (ref, src, f)) :
    (∀ p ∈ ref, p ∈ A ∨ p ∈ B) ∧ (∀ p ∈ src, p ∈ A ∨ p ∈ B) := by
  cases A with
  | nil => simp [alignPair] at h
  | cons a1 r1 =>
    cases B with
    | nil => simp [alignPair] at h
    | cons a2 r2 =>
      simp only [alignPair] at h
      by_cases hc : a2.t < a1.t
      · rw [if_pos hc] at h
        have := alignOriented_mem _ _ _ _ _ _ h
        exact ⟨fun p hp => (this.1 p hp).symm, fun p hp => (this.2 p hp).symm⟩
      · rw [if_neg hc] at h
        exact alignOriented_mem _ _ _ _ _ _ h

/-- The trim stage fails exactly when the head-trim search finds no sample of
the earlier-starting sequence strictly after the other's first timestamp. -/
theorem alignOriented_eq_none (d1 d2 : List Sample) (fl : Bool) :
    alignOriented d1 d2 fl = none ↔
      (d1.findIdx? fun p => decide (d2.headI.t < p.t)) = none := by
  unfold alignOriented
  cases d1.findIdx? fun p => decide (d2.headI.t < p.t) with
  | none => simp
  | some i =>
    simp only
    split <;> split <;> simp

/-- The trim stage is oblivious to the incoming flip flag except for
negating it in its output. -/
theorem alignOriented_negate_flag (d1 d2 : List Sample) :
    alignOriented d1 d2 true =
      (alignOriented d1 d2 false).map fun x => (x.1, x.2.1, !x.2.2) := by
  unfold alignOriented
  cases d1.findIdx? fun p => decide (d2.headI.t < p.t) with
  | none => rfl
  | some i =>
    simp only
    split <;> split <;> rfl

/-- When the first input starts strictly earlier, swapping the arguments of
`interpolate` with `unflip` set swaps the two outputs. -/
theorem interpolate_swap_of_lt (interp : Coord → Coord → ℚ → Coord)
    (a1 a2 : Sample) (r1 r2 : List Sample) (hlt : a1.t < a2.t) :
    interpolate interp true (a1 :: r1) (a2 :: r2) =
      Option.map Prod.swap (interpolate interp true (a2 :: r2) (a1 :: r1)) := by
  unfold interpolate
  simp only [alignPair]
  rw [if_neg (not_lt_of_gt hlt), if_pos hlt, alignOriented_negate_flag]
  cases alignOriented (a1 :: r1) (a2 :: r2) false with
  | none => rfl
  | some rsf =>
    obtain ⟨ref, src, fl⟩ := rsf
    cases fl <;> rfl

/-- With a positive step and fuel equal to the exact iteration count, the
resample loop emits timestamps forming an arithmetic progression. -/
theorem resampleLoop_timestamps (ts : List Sample) (step tmax : ℚ) (hstep : 0 < step) :
    ∀ (n : ℕ) (i : ℕ) (t : ℚ), ⌈(tmax - t) / step⌉ = (n : ℤ) →
      (resampleLoop ts step tmax n i t).map Sample.t
        = (List.range n).map fun k : ℕ => t + (k : ℚ) * step := by
  intro n
  induction n with
  | zero => intro i t hn; simp [resampleLoop]
  | succ m ih =>
    intro i t hn
    have hpos : (0 : ℤ) < ⌈(tmax - t) / step⌉ := by
      rw [hn]
      exact_mod_cast Nat.succ_pos m
    have hx : 0 < (tmax - t) / step := Int.ceil_pos.mp hpos
    have ht : t < tmax := by
      have h1 : 0 < tmax - t := by
        have h2 := mul_pos hx hstep
        rwa [div_mul_cancel₀ _ (ne_of_gt hstep)] at h2
      linarith
    have hnext : ⌈(tmax - (t + step)) / step⌉ = (m : ℤ) := by
      have he : (tmax - (t + step)) / step = (tmax - t) / step - 1 := by
        rw [show tmax - (t + step) = tmax - t - step by ring, sub_div,
          div_self (ne_of_gt hstep)]
      rw [he, Int.ceil_sub_one, hn]
      push_cast
      ring
    simp only [resampleLoop, if_pos ht, List.map_cons]
    rw [ih _ _ hnext, List.range_succ_eq_map, List.map_cons, List.map_map]
    refine congrArg₂ _ (by push_cast; ring) ?_
    refine List.map_congr_left ?_
    intro k _
    simp only [Function.comp_apply]
    push_cast
    ring

/-- Gap bounds stated by index give a chain of gap bounds along the
timestamps. -/
theorem chain_of_getD (th : ℚ) : ∀ (l : List Sample) (a : Sample),
    (∀ k, k + 1 < (a :: l).length →
      ((a :: l).getD (k + 1) dflt).t - ((a :: l).getD k dflt).t ≤ th) →
    List.Chain (fun u v : ℚ => v - u ≤ th) a.t (l.map Sample.t)
  | [], _, _ => List.Chain.nil
  | b :: l, a, h => by
    simp only [List.map_cons]
    refine List.Chain.cons ?_ (chain_of_getD th l b ?_)
    · have h0 := h 0 (by simp)
      simpa using h0
    · intro k hk
      have hs := h (k + 1) (by simpa using hk)
      simpa using hs

/-- When no gap exceeds the threshold, the break-collapsing loop shifts every
timestamp by exactly the incoming running total. -/
theorem skipBreaksLoop_no_break (th : ℚ) :
    ∀ (l : List Sample) (tprev total : ℚ),
      List.Chain (fun u v : ℚ => v - u ≤ th) tprev (l.map Sample.t) →
      skipBreaksLoop th l tprev total = l.map fun e => ⟨e.t - total, e.x, e.y⟩
  | [], _, _, _ => rfl
  | e :: rest, tprev, total, h => by
    rw [List.map_cons, List.chain_cons] at h
    have hc : ¬ th < e.t - tprev := not_lt_of_le h.1
    simp only [skipBreaksLoop, if_neg hc, List.map_cons, List.cons.injEq]
    exact ⟨by trivial, skipBreaksLoop_no_break th rest e.t total h.2⟩

/-- With exactly one oversized gap at index `i`, the break-collapsing loop
leaves samples up to `i` shifted by the incoming total only and shifts all
later samples additionally by that gap. -/
theorem skipBreaksLoop_single_break (th : ℚ) :
    ∀ (i : ℕ) (l : List Sample) (tprev total : ℚ),
      l.headI.t - tprev ≤ th →
      i + 1 < l.length →
      th < (l.getD (i + 1) dflt).t - (l.getD i dflt).t →
      (∀ k, k + 1 < l.length → k ≠ i →
        (l.getD (k + 1) dflt).t - (l.getD k dflt).t ≤ th) →
      skipBreaksLoop th l tprev total =
        (l.take (i + 1)).map (fun e => ⟨e.t - total, e.x, e.y⟩) ++
          (l.drop (i + 1)).map fun e =>
            ⟨e.t - (total + ((l.getD (i + 1) dflt).t - (l.getD i dflt).t)), e.x, e.y⟩
  | 0, e0 :: e1 :: rest, tprev, total, hhead, _, hgap, hothers => by
    have hc0 : ¬ th < e0.t - tprev := not_lt_of_le (by simpa using hhead)
    have hg : th < e1.t - e0.t := by simpa using hgap
    have hrest : skipBreaksLoop th rest e1.t (total + (e1.t - e0.t))
        = rest.map fun e => ⟨e.t - (total + (e1.t - e0.t)), e.x, e.y⟩ := by
      refine skipBreaksLoop_no_break th rest e1.t _ (chain_of_getD th rest e1 ?_)
      intro k hk
      have hs := hothers (k + 1) (by simpa using hk) (by omega)
      simpa using hs
    have hstep : skipBreaksLoop th (e0 :: e1 :: rest) tprev total
        = ⟨e0.t - total, e0.x, e0.y⟩ :: ⟨e1.t - (total + (e1.t - e0.t)), e1.x, e1.y⟩ ::
          skipBreaksLoop th rest e1.t (total + (e1.t - e0.t)) := by
      simp only [skipBreaksLoop, if_neg hc0, if_pos hg]
    rw [hstep, hrest]
    simp only [List.take_succ_cons, List.take_zero, List.drop_succ_cons, List.drop_zero,
      List.map_cons, List.map_nil, List.nil_append, List.cons_append,
      List.getD_cons_succ, List.getD_cons_zero]
  | i + 1, e0 :: rest, tprev, total, hhead, hlen, hgap, hothers => by
    have hrne : rest ≠ [] := by
      intro hr
      rw [hr] at hlen
      simp at hlen
    obtain ⟨r0, rest', rfl⟩ : ∃ r0 rest', rest = r0 :: rest' := by
      cases rest with
      | nil => exact absurd rfl hrne
      | cons r0 rest' => exact ⟨r0, rest', rfl⟩
    have hc0 : ¬ th < e0.t - tprev := not_lt_of_le (by simpa using hhead)
    have hih := skipBreaksLoop_single_break th i (r0 :: rest') e0.t total
      (by
        have hs := hothers 0 (by simpa using hlen) (by omega)
        simpa using hs)
      (by simpa using hlen)
      (by simpa using hgap)
      (by
        intro k hk hki
        have hs := hothers (k + 1) (by simpa using hk) (by omega)
        simpa using hs)
    have hstep : skipBreaksLoop th (e0 :: r0 :: rest') tprev total
        = ⟨e0.t - total, e0.x, e0.y⟩ :: skipBreaksLoop th (r0 :: rest') e0.t total := by
      simp only [skipBreaksLoop, if_neg hc0]
    rw [hstep, hih]
    simp only [List.take_succ_cons, List.map_cons, List.cons_append,
      List.drop_succ_cons, List.getD_cons_succ]

/-- C1, counterexample: for `A = exA`, `B = exB` (each with at least two
samples and strictly increasing timestamps) the two sequences returned by
`Replay.interpolate` have different lengths — `clean` keeps the reference
sample at which the sweep stopped, `interpolated` does not. -/
theorem c1_counterexample :
    interpolate Interpolation.linear false exA exB
        = some ([⟨0, 0, 0⟩, ⟨20, 20, 0⟩], [⟨0, 0, 0⟩]) ∧
      ([(⟨0, 0, 0⟩ : Sample), ⟨20, 20, 0⟩].length ≠ [(⟨0, 0, 0⟩ : Sample)].length) := by
  constructor
  · decide
  · decide

-- C2 counterexample

/-- C1, amended: for inputs with at least two samples and strictly increasing
timestamps, the outputs of `Replay.interpolate` (default `unflip = false`)
satisfy `len(inter) ≤ len(clean) ≤ len(inter) + 1`, both are at most
`min(len A, len B)`, and `clean` is a prefix of the reference sequence, so
every reference sample strictly after the stopping one is absent from both
outputs (the stopping one itself stays in `clean`). -/
theorem c1_amended (interp : Coord → Coord → ℚ → Coord) (A B clean inter : List Sample)
    (hA : 2 ≤ A.length) (hB : 2 ≤ B.length)
    (hsA : List.Chain' (fun p q : Sample => p.t < q.t) A)
    (hsB : List.Chain' (fun p q : Sample => p.t < q.t) B)
    (h : interpolate interp false A B = some (clean, inter)) :
    inter.length ≤ clean.length ∧ clean.length ≤ inter.length + 1 ∧
      clean.length ≤ min A.length B.length ∧
      ∀ ref src f, alignPair A B = some (ref, src, f) → clean = ref.take clean.length := by
  unfold interpolate at h
  cases hap : alignPair A B with
  | none => rw [hap] at h; simp at h
  | some rsf =>
    rw [hap] at h
    obtain ⟨ref, src, f⟩ := rsf
    simp only [Option.map_some', Bool.false_and, Bool.false_eq_true, if_false,
      Option.some.injEq] at h
    have hclean : (sweep interp src 0 ref).1 = clean := by rw [h]
    have hinter : (sweep interp src 0 ref).2 = inter := by rw [h]
    subst hclean; subst hinter
    have hl := sweep_lengths interp src ref 0
    have ht := sweep_clean_take interp src ref 0
    have hle := sweep_clean_length_le interp src ref 0
    have hr := alignPair_ref_length A B ref src f hap
    refine ⟨hl.1, hl.2, ?_, ?_⟩
    · omega
    · intro ref' src' f' hap'
      simp only [Option.some.injEq, Prod.mk.injEq] at hap'
      rw [← hap'.1]
      exact ht

/-- C1, witness: the amended claim evaluated at the concrete pair `exA`,
`exB`. -/
theorem c1_amended_witness :
    [(⟨0, 0, 0⟩ : Sample)].length ≤ [(⟨0, 0, 0⟩ : Sample), ⟨20, 20, 0⟩].length ∧
      [(⟨0, 0, 0⟩ : Sample), ⟨20, 20, 0⟩].length ≤ [(⟨0, 0, 0⟩ : Sample)].length + 1 ∧
      [(⟨0, 0, 0⟩ : Sample), ⟨20, 20, 0⟩].length ≤ min exA.length exB.length ∧
      ∀ ref src f, alignPair exA exB = some (ref, src, f) →
        [(⟨0, 0, 0⟩ : Sample), ⟨20, 20, 0⟩] = ref.take
          [(⟨0, 0, 0⟩ : Sample), ⟨20, 20, 0⟩].length :=
  c1_amended Interpolation.linear exA exB _ _ (by decide) (by decide)
    (by norm_num [exA, List.chain'_cons]) (by norm_num [exB, List.chain'_cons]) (by decide)

/-- C2, counterexample: aligning `exA` with `exB` does not return the
`clean = [(0,0,0),(10,10,0)]`, `interpolated = [(0,0,0),(10,10,0)]` stated by
the spec. -/
theorem c2_counterexample :
    interpolate Interpolation.linear false exA exB
      ≠ some ([⟨0, 0, 0⟩, ⟨10, 10, 0⟩], [⟨0, 0, 0⟩, ⟨10, 10, 0⟩]) := by decide

-- C2 amended

/-- C2, amended: aligning `exA` with `exB` with linear interpolation returns
`clean = [(0,0,0),(20,20,0)]` and `interpolated = [(0,0,0)]` (after the
length-based re-pairing, `exB` is the reference, and the sweep stops at its
last sample, which stays in `clean`), and the mean distance over the aligned,
truncated coordinate rows is 0. -/
theorem c2_amended :
    interpolate Interpolation.linear false exA exB
        = some ([⟨0, 0, 0⟩, ⟨20, 20, 0⟩], [⟨0, 0, 0⟩]) ∧
      meanDistance ([(⟨0, 0, 0⟩ : Sample), ⟨20, 20, 0⟩].map Sample.coords)
          ([(⟨0, 0, 0⟩ : Sample)].map Sample.coords) = 0 := by
  constructor
  · decide
  · have h : distancesSq ([(⟨0, 0, 0⟩ : Sample), ⟨20, 20, 0⟩].map Sample.coords)
        ([(⟨0, 0, 0⟩ : Sample)].map Sample.coords) = [0] := by decide
    rw [meanDistance, h]
    simp

-- C3 counterexample

/-- C3, counterexample: the interpolated output for `cxA`, `cxB` contains the
sample `(5, 700, 0)`, whose x-coordinate exceeds magnitude 600: the outlier
guard substituted the reference sample verbatim, and that sample's own
coordinate is beyond the bound. -/
theorem c3_counterexample :
    interpolate Interpolation.linear false cxA cxB
        = some ([⟨5, 700, 0⟩], [⟨5, 700, 0⟩]) ∧
      ¬ (|(700 : ℚ)| ≤ 600 ∧ |(0 : ℚ)| ≤ 600) := by
  constructor
  · decide
  · decide

-- C6 counterexample

/-- C3, amended: every element of the interpolated output either has both
coordinates of magnitude at most 600 or carries the coordinates of an actual
input sample (the reference sample substituted by the outlier guard, or the
left source sample of a degenerate bracket); raw input coordinates are never
clamped. -/
theorem c3_amended (interp : Coord → Coord → ℚ → Coord) (A B clean inter : List Sample)
    (h : interpolate interp false A B = some (clean, inter))
    (q : Sample) (hq : q ∈ inter) :
    (|q.x| ≤ 600 ∧ |q.y| ≤ 600) ∨ ∃ p, (p ∈ A ∨ p ∈ B) ∧ p.x = q.x ∧ p.y = q.y := by
  unfold interpolate at h
  cases hap : alignPair A B with
  | none => rw [hap] at h; simp at h
  | some rsf =>
    rw [hap] at h
    obtain ⟨ref, src, f⟩ := rsf
    simp only [Option.map_some', Bool.false_and, Bool.false_eq_true, if_false,
      Option.some.injEq] at h
    have hinter : (sweep interp src 0 ref).2 = inter := by rw [h]
    subst hinter
    rcases sweep_inter_mem interp src ref 0 q hq with h1 | ⟨p, hp, hx, hy⟩
    · exact Or.inl h1
    · have hm := alignPair_mem A B ref src f hap
      rcases hp with h2 | h2
      · exact Or.inr ⟨p, hm.1 p h2, hx, hy⟩
      · exact Or.inr ⟨p, hm.2 p h2, hx, hy⟩

/-- C3, witness: the amended claim evaluated at `cxA`, `cxB` and the output
sample `(5, 700, 0)`. -/
theorem c3_amended_witness :
    (|(700 : ℚ)| ≤ 600 ∧ |(0 : ℚ)| ≤ 600) ∨
      ∃ p, (p ∈ cxA ∨ p ∈ cxB) ∧ p.x = 700 ∧ p.y = 0 :=
  c3_amended Interpolation.linear cxA cxB [⟨5, 700, 0⟩] [⟨5, 700, 0⟩] (by decide)
    ⟨5, 700, 0⟩ (by decide)

/-- C4 (code bug): evaluating `Interpolation.before` at
`x1 = (0,0)`, `x2 = (1,1)`, `r = 1/2` returns `x2 = (1,1)` — the later
bracket point — although its own docstring says it returns the startpoint
`x1`, as the claim states. -/
theorem c4_before_eval :
    Interpolation.before (0, 0) (1, 1) (1 / 2) = (1, 1) := rfl

-- C5

/-- C5, counterexample: at `mean = threshold = 5` the comparer emits the
outcome even though `mean < threshold` fails: emission is not governed by
strict inequality. -/
theorem c5_counterexample :
    printResultEmits 5 5 = true ∧ ¬ ((5 : ℚ) < 5) := by decide

/-- C5, amended: `Comparer._print_result` emits an outcome exactly when
`mean ≤ threshold` — the guard `if mean > threshold: return` makes the
emission predicate non-strict. -/
theorem c5_amended (threshold mean : ℚ) :
    printResultEmits threshold mean = true ↔ mean ≤ threshold := by
  simp [printResultEmits]

-- C1 counterexample

/-- C6, counterexample: resampling `[(0,0,0),(15,0,0)]` at 100 Hz yields two
samples, while `floor((t_max - t_min) * f / 1000) = floor(1.5) = 1`. -/
theorem c6_counterexample :
    resample [⟨0, 0, 0⟩, ⟨15, 0, 0⟩] 100 = some [⟨0, 0, 0⟩, ⟨10, 0, 0⟩] ∧
      ¬ (([(⟨0, 0, 0⟩ : Sample), ⟨10, 0, 0⟩].length : ℤ) = ⌊((15 : ℚ) - 0) * 100 / 1000⌋) := by
  constructor
  · decide
  · decide

-- C8 counterexample

/-- C6, amended: for an input whose first timestamp is strictly below its
last and a positive frequency, `Replay.resample` returns exactly
`ceil((t_max - t_min) * frequency / 1000)` samples (the `while t < t_max`
loop runs once per step started before `t_max`), and consecutive output
timestamps differ by exactly `1000 / frequency`. -/
theorem c6_amended (ts : List Sample) (f : ℚ) (out : List Sample)
    (h2 : 2 ≤ ts.length)
    (hlt : ts.headI.t < ((ts.getLast?).getD dflt).t)
    (hf : 0 < f)
    (h : resample ts f = some out) :
    (out.length : ℤ) = ⌈(((ts.getLast?).getD dflt).t - ts.headI.t) * f / 1000⌉ ∧
      List.Chain' (fun p q : Sample => q.t - p.t = 1000 / f) out := by
  cases ts with
  | nil => simp at h2
  | cons a rest =>
    have hlast : ((a :: rest).getLast?).getD dflt = (a :: rest).getLast (by simp) := by
      rw [List.getLast?_eq_getLast (a :: rest) (by simp)]
      rfl
    rw [hlast] at hlt ⊢
    have hhead : (a :: rest).headI = a := rfl
    rw [hhead] at hlt ⊢
    set tmax := ((a :: rest).getLast (by simp)).t with htmax
    have hstep : 0 < 1000 / f := by positivity
    simp only [resample, if_neg (not_le_of_lt hlt), if_neg (not_le_of_lt hf),
      Option.some.injEq] at h
    have hceil : ⌈(tmax - a.t) / (1000 / f)⌉ = ((⌈(tmax - a.t) / (1000 / f)⌉.toNat : ℕ) : ℤ) := by
      rw [Int.toNat_of_nonneg]
      refine le_of_lt (Int.ceil_pos.mpr ?_)
      have : 0 < tmax - a.t := by linarith
      positivity
    have hmap := resampleLoop_timestamps (a :: rest) (1000 / f) tmax hstep
      (⌈(tmax - a.t) / (1000 / f)⌉.toNat) 0 a.t hceil
    rw [h] at hmap
    constructor
    · have hlen : out.length = (⌈(tmax - a.t) / (1000 / f)⌉.toNat : ℕ) := by
        have := congrArg List.length hmap
        simpa using this
      rw [hlen, ← hceil, div_div_eq_mul_div]
    · have hchain : List.Chain' (fun u v : ℚ => v - u = 1000 / f) (out.map Sample.t) := by
        rw [hmap, List.chain'_map]
        generalize ⌈(tmax - a.t) / (1000 / f)⌉.toNat = N
        cases N with
        | zero => simp
        | succ k =>
          rw [List.chain'_range_succ]
          intro m hm
          push_cast
          ring
      rw [List.chain'_map] at hchain
      exact hchain

/-- C6, witness: the amended claim evaluated at `[(0,0,0),(15,0,0)]` and
100 Hz. -/
theorem c6_amended_witness :
    (([(⟨0, 0, 0⟩ : Sample), ⟨10, 0, 0⟩].length : ℤ)
        = ⌈((([(⟨0, 0, 0⟩ : Sample), ⟨15, 0, 0⟩].getLast?).getD dflt).t
            - [(⟨0, 0, 0⟩ : Sample), ⟨15, 0, 0⟩].headI.t) * 100 / 1000⌉) ∧
      List.Chain' (fun p q : Sample => q.t - p.t = 1000 / 100)
        [(⟨0, 0, 0⟩ : Sample), ⟨10, 0, 0⟩] :=
  c6_amended [⟨0, 0, 0⟩, ⟨15, 0, 0⟩] 100 [⟨0, 0, 0⟩, ⟨10, 0, 0⟩]
    (by decide) (by decide) (by decide) (by decide)

/-- C7 (confirmed): for a time-ordered input with a nonnegative threshold and
exactly one gap `g` exceeding it, between samples `i` and `i+1`,
`Replay.skip_breaks` keeps samples `0..i` unchanged, shifts every later
sample's timestamp down by exactly `g` while keeping its coordinates, leaves
every consecutive output gap at most the threshold, and preserves length. -/
theorem c7_skip_breaks (ts : List Sample) (th : ℚ) (i : ℕ) (out : List Sample)
    (hth : 0 ≤ th)
    (hsorted : List.Chain' (fun p q : Sample => p.t ≤ q.t) ts)
    (hi : i + 1 < ts.length)
    (hgap : th < (ts.getD (i + 1) dflt).t - (ts.getD i dflt).t)
    (hothers : ∀ k < ts.length - 1, k ≠ i →
      (ts.getD (k + 1) dflt).t - (ts.getD k dflt).t ≤ th)
    (h : skipBreaks ts th = some out) :
    out.length = ts.length ∧
      (∀ k, k ≤ i → out[k]? = ts[k]?) ∧
      (∀ k, i < k → out[k]? = (ts[k]?).map fun e =>
        ⟨e.t - ((ts.getD (i + 1) dflt).t - (ts.getD i dflt).t), e.x, e.y⟩) ∧
      ∀ k p q, out[k]? = some p → out[k + 1]? = some q → q.t - p.t ≤ th := by
  cases ts with
  | nil => simp at hi
  | cons a rest =>
    simp only [skipBreaks, Option.some.injEq] at h
    have hout : out = skipBreaksLoop th (a :: rest) a.t 0 := h.symm
    have heq := skipBreaksLoop_single_break th i (a :: rest) a.t 0
      (by simpa using hth) hi hgap
      (by
        intro k hk hki
        exact hothers k (by omega) hki)
    rw [heq] at hout
    set g := (((a :: rest).getD (i + 1) dflt).t - ((a :: rest).getD i dflt).t) with hg
    set ts := a :: rest with hts
    have htake : (ts.take (i + 1)).length = i + 1 := by
      rw [List.length_take]
      omega
    have hdrop : (ts.drop (i + 1)).length = ts.length - (i + 1) := List.length_drop _ _
    have hlen : out.length = ts.length := by
      rw [hout]
      simp only [List.length_append, List.length_map, htake, hdrop]
      omega
    have hkle : ∀ k, k ≤ i → out[k]? = ts[k]? := by
      intro k hk
      rw [hout, List.getElem?_append_left (by simp only [List.length_map, htake]; omega),
        List.getElem?_map, List.getElem?_take]
      rw [if_pos (by omega)]
      cases hts_k : ts[k]? with
      | none => rfl
      | some p =>
        simp only [Option.map_some']
        congr 1
        cases p with
        | mk pt px py => simp
    have hkgt : ∀ k, i < k → out[k]? = (ts[k]?).map fun e =>
        (⟨e.t - g, e.x, e.y⟩ : Sample) := by
      intro k hk
      have hidx : (i + 1) + (k - (i + 1)) = k := by omega
      rw [hout, List.getElem?_append_right (by simp only [List.length_map, htake]; omega)]
      simp only [List.length_map, htake]
      rw [List.getElem?_map, List.getElem?_drop, hidx]
      simp only [zero_add]
    refine ⟨hlen, hkle, hkgt, ?_⟩
    intro k p q hp hq
    have hkq : k + 1 < ts.length := by
      rcases List.getElem?_eq_some_iff.mp hq with ⟨hlt, _⟩
      omega
    have hgetD : ∀ (m : ℕ) (e : Sample), ts[m]? = some e → ts.getD m dflt = e := by
      intro m e he
      rw [List.getD_eq_getElem?_getD, he]
      rfl
    rcases lt_trichotomy k i with hki | hki | hki
    · rw [hkle k (by omega)] at hp
      rw [hkle (k + 1) (by omega)] at hq
      have hd := hothers k (by omega) (by omega)
      rw [hgetD k p hp, hgetD (k + 1) q hq] at hd
      exact hd
    · subst hki
      rw [hkle k le_rfl] at hp
      rw [hkgt (k + 1) (by omega)] at hq
      rcases Option.map_eq_some'.mp hq with ⟨e, he, hqe⟩
      have hdp := hgetD k p hp
      have hde := hgetD (k + 1) e he
      rw [← hqe]
      simp only
      rw [hg, hdp, hde]
      linarith
    · rw [hkgt k hki] at hp
      rw [hkgt (k + 1) (by omega)] at hq
      rcases Option.map_eq_some'.mp hp with ⟨ep, hep, hpe⟩
      rcases Option.map_eq_some'.mp hq with ⟨eq', heq', hqe⟩
      have hd := hothers k (by omega) (by omega)
      rw [hgetD k ep hep, hgetD (k + 1) eq' heq'] at hd
      rw [← hpe, ← hqe]
      simp only
      linarith

/-- C7, witness: the theorem evaluated at a four-sample trace with one
1995 ms gap over a 1000 ms threshold. -/
theorem c7_skip_breaks_witness :
    ([(⟨0, 0, 0⟩ : Sample), ⟨5, 1, 2⟩, ⟨5, 3, 4⟩, ⟨10, 5, 6⟩].length
        = [(⟨0, 0, 0⟩ : Sample), ⟨5, 1, 2⟩, ⟨2000, 3, 4⟩, ⟨2005, 5, 6⟩].length) ∧
      (∀ k, k ≤ 1 → [(⟨0, 0, 0⟩ : Sample), ⟨5, 1, 2⟩, ⟨5, 3, 4⟩, ⟨10, 5, 6⟩][k]?
        = [(⟨0, 0, 0⟩ : Sample), ⟨5, 1, 2⟩, ⟨2000, 3, 4⟩, ⟨2005, 5, 6⟩][k]?) ∧
      (∀ k, 1 < k → [(⟨0, 0, 0⟩ : Sample), ⟨5, 1, 2⟩, ⟨5, 3, 4⟩, ⟨10, 5, 6⟩][k]?
        = ([(⟨0, 0, 0⟩ : Sample), ⟨5, 1, 2⟩, ⟨2000, 3, 4⟩, ⟨2005, 5, 6⟩][k]?).map fun e =>
          ⟨e.t - (([(⟨0, 0, 0⟩ : Sample), ⟨5, 1, 2⟩, ⟨2000, 3, 4⟩, ⟨2005, 5, 6⟩].getD 2 dflt).t
            - ([(⟨0, 0, 0⟩ : Sample), ⟨5, 1, 2⟩, ⟨2000, 3, 4⟩, ⟨2005, 5, 6⟩].getD 1 dflt).t),
            e.x, e.y⟩) ∧
      ∀ k p q, [(⟨0, 0, 0⟩ : Sample), ⟨5, 1, 2⟩, ⟨5, 3, 4⟩, ⟨10, 5, 6⟩][k]? = some p →
        [(⟨0, 0, 0⟩ : Sample), ⟨5, 1, 2⟩, ⟨5, 3, 4⟩, ⟨10, 5, 6⟩][k + 1]? = some q →
        q.t - p.t ≤ 1000 :=
  c7_skip_breaks [⟨0, 0, 0⟩, ⟨5, 1, 2⟩, ⟨2000, 3, 4⟩, ⟨2005, 5, 6⟩] 1000 1
    [⟨0, 0, 0⟩, ⟨5, 1, 2⟩, ⟨5, 3, 4⟩, ⟨10, 5, 6⟩]
    (by decide) (by norm_num [List.chain'_cons]) (by decide) (by decide)
    (by decide) (by decide)

/-- C8, counterexample: building the timestamped list from zero events
returns the empty list rather than failing, and `Replay.resample` on a
single sample returns an empty list rather than failing; only the zero-sample
call to `resample` fails. -/
theorem c8_counterexample :
    asListWithTimestamps [] = [] ∧ resample [⟨3, 1, 2⟩] 60 = some [] ∧
      resample [] 60 = none := by
  refine ⟨?_, ?_, ?_⟩
  · simp [asListWithTimestamps, cumsumFrom]
  · decide
  · rfl

-- C9 counterexample

/-- C8, amended: `as_list_with_timestamps` is total — on zero events it
returns the empty list (no `EmptyTraceError` exists in the code) — and
`Replay.resample` returns the empty list on exactly one sample for every
frequency, failing (IndexError) only on zero samples. -/
theorem c8_amended :
    asListWithTimestamps [] = [] ∧ resample [] 60 = none ∧
      ∀ (s : Sample) (f : ℚ), resample [s] f = some [] := by
  refine ⟨by simp [asListWithTimestamps, cumsumFrom], rfl, ?_⟩
  intro s f
  simp [resample]

/-- C9, counterexample: for `exA`, `exB` — both starting at `t = 0` —
`interpolate` with `unflip` is not symmetric: the two argument orders give
results that are not component swaps of each other. -/
theorem c9_counterexample :
    interpolate Interpolation.linear true exA exB
      ≠ Option.map Prod.swap (interpolate Interpolation.linear true exB exA) := by decide

/-- C9, amended: for valid inputs whose first timestamps differ,
`interpolate(A, B, unflip := true)` equals the component-swapped
`interpolate(B, A, unflip := true)`; with equal first timestamps the initial
swap check breaks the symmetry. -/
theorem c9_amended (interp : Coord → Coord → ℚ → Coord) (A B : List Sample)
    (hA : 2 ≤ A.length) (hB : 2 ≤ B.length)
    (hsA : List.Chain' (fun p q : Sample => p.t < q.t) A)
    (hsB : List.Chain' (fun p q : Sample => p.t < q.t) B)
    (hne : A.headI.t ≠ B.headI.t) :
    interpolate interp true A B = Option.map Prod.swap (interpolate interp true B A) := by
  cases A with
  | nil => simp at hA
  | cons a1 r1 =>
    cases B with
    | nil => simp at hB
    | cons a2 r2 =>
      have hne' : a1.t ≠ a2.t := hne
      rcases lt_or_gt_of_ne hne' with hlt | hgt
      · exact interpolate_swap_of_lt interp a1 a2 r1 r2 hlt
      · have h2 := interpolate_swap_of_lt interp a2 a1 r2 r1 hgt
        rw [h2, Option.map_map]
        have hcomp : Prod.swap ∘ (Prod.swap :
            List Sample × List Sample → List Sample × List Sample) = id := by
          funext p
          simp
        rw [hcomp, Option.map_id]
        rfl

/-- C9, witness: the amended claim evaluated at two two-sample traces
starting at `t = 0` and `t = 5`. -/
theorem c9_amended_witness :
    interpolate Interpolation.linear true [⟨0, 0, 0⟩, ⟨10, 0, 0⟩] [⟨5, 0, 0⟩, ⟨15, 0, 0⟩]
      = Option.map Prod.swap
        (interpolate Interpolation.linear true [⟨5, 0, 0⟩, ⟨15, 0, 0⟩] [⟨0, 0, 0⟩, ⟨10, 0, 0⟩]) :=
  c9_amended Interpolation.linear [⟨0, 0, 0⟩, ⟨10, 0, 0⟩] [⟨5, 0, 0⟩, ⟨15, 0, 0⟩]
    (by decide) (by decide) (by norm_num [List.chain'_cons]) (by norm_num [List.chain'_cons])
    (by decide)

/-- C10 (confirmed): on nonempty inputs, `Replay.interpolate` fails exactly
when no sample of the earlier-starting sequence (after the initial swap) has
a timestamp strictly greater than the other sequence's first timestamp — the
head-trim's unguarded `next` raises StopIteration — and under the
complementary precondition the head-trim is total. -/
theorem c10_head_trim (interp : Coord → Coord → ℚ → Coord) (unflip : Bool)
    (a1 a2 : Sample) (r1 r2 : List Sample) :
    interpolate interp unflip (a1 :: r1) (a2 :: r2) = none ↔
      ∀ p ∈ (if a2.t < a1.t then a2 :: r2 else a1 :: r1),
        ¬ (if a2.t < a1.t then a1.t else a2.t) < p.t := by
  unfold interpolate
  simp only [alignPair]
  rw [Option.map_eq_none']
  by_cases hc : a2.t < a1.t
  · rw [if_pos hc, if_pos hc, if_pos hc, alignOriented_eq_none,
      List.findIdx?_eq_none_iff]
    simp
  · rw [if_neg hc, if_neg hc, if_neg hc, alignOriented_eq_none,
      List.findIdx?_eq_none_iff]
    simp

/-- C10, witness: two single-sample traces with no sample of the earlier one
beyond the later one's start make `interpolate` fail. -/
theorem c10_head_trim_witness :
    interpolate Interpolation.linear false [⟨0, 0, 0⟩] [⟨5, 0, 0⟩] = none :=
  (c10_head_trim Interpolation.linear false ⟨0, 0, 0⟩ ⟨5, 0, 0⟩ [] []).mpr (by decide)

end OsuAC
